import Mathlib

/-!
Verification of the PMpedia search backend (server.js): a shallow embedding of
the `SearchEngine` class — document loading, section indexing, the hybrid
scoring algorithm, result shaping, cross-standard comparison and document
statistics — together with theorems settling the frozen claims about it.

Text is modelled as `List Char`.  JavaScript values that may be `undefined`
are modelled as `Option`; JS string truthiness (empty string is falsy) is
modelled explicitly by the `jsOr` helpers.  The TF-IDF weighting model and the
Porter stemmer come from the external `natural` library, so they are taken as
parameters (`tf`, `stem`) of the search operations; the word tokenizer of
`natural` (splitting on non-alphanumeric characters) is modelled concretely.
Floating-point scores are modelled as rationals; the handful of IEEE special
values reachable in `getDocumentStats` (NaN, ±Infinity) are modelled by the
`JNum` type.
-/

set_option maxRecDepth 4000

attribute [local semireducible] Rat.add Rat.mul Rat.inv Rat.sub

/-- Text, modelled as a list of characters. -/
abbrev Str := List Char

/-- Shorthand for turning a string literal into the `Str` model. -/
def str (s : String) : Str := s.toList

/-- ASCII lower-casing of one character (model of JS `toLowerCase`). -/
def lowChar (c : Char) : Char :=
  match c with
  | 'A' => 'a' | 'B' => 'b' | 'C' => 'c' | 'D' => 'd' | 'E' => 'e' | 'F' => 'f'
  | 'G' => 'g' | 'H' => 'h' | 'I' => 'i' | 'J' => 'j' | 'K' => 'k' | 'L' => 'l'
  | 'M' => 'm' | 'N' => 'n' | 'O' => 'o' | 'P' => 'p' | 'Q' => 'q' | 'R' => 'r'
  | 'S' => 's' | 'T' => 't' | 'U' => 'u' | 'V' => 'v' | 'W' => 'w' | 'X' => 'x'
  | 'Y' => 'y' | 'Z' => 'z'
  | c => c

/-- ASCII upper-casing of one character (model of JS `toUpperCase`). -/
def upChar (c : Char) : Char :=
  match c with
  | 'a' => 'A' | 'b' => 'B' | 'c' => 'C' | 'd' => 'D' | 'e' => 'E' | 'f' => 'F'
  | 'g' => 'G' | 'h' => 'H' | 'i' => 'I' | 'j' => 'J' | 'k' => 'K' | 'l' => 'L'
  | 'm' => 'M' | 'n' => 'N' | 'o' => 'O' | 'p' => 'P' | 'q' => 'Q' | 'r' => 'R'
  | 's' => 'S' | 't' => 'T' | 'u' => 'U' | 'v' => 'V' | 'w' => 'W' | 'x' => 'X'
  | 'y' => 'Y' | 'z' => 'Z'
  | c => c

/-- Lower-case a whole text (JS `String.prototype.toLowerCase`). -/
def lowerStr (s : Str) : Str := s.map lowChar

/-- Upper-case a whole text (JS `String.prototype.toUpperCase`). -/
def upperStr (s : Str) : Str := s.map upChar

/-- JS `String.prototype.trim`: strip leading and trailing whitespace. -/
def trimStr (s : Str) : Str :=
  ((s.dropWhile Char.isWhitespace).reverse.dropWhile Char.isWhitespace).reverse

/-- JS `String.prototype.includes`: `pat` occurs as a contiguous substring. -/
def hasSubstr (pat text : Str) : Bool :=
  (List.range (text.length + 1)).any (fun i => pat.isPrefixOf (text.drop i))

/-- JS `String.prototype.endsWith`. -/
def endsWith (suf s : Str) : Bool := suf.reverse.isPrefixOf s.reverse

/-- Scan for `splitRuns`, structurally recursive on a fuel bound so that it
evaluates by kernel reduction; each step consumes at least one character, so
`length + 1` fuel always suffices. -/
def splitRunsAux (sep : Char → Bool) : Nat → Str → Str → List Str
  | 0, acc, _ => [acc.reverse]
  | _ + 1, acc, [] => [acc.reverse]
  | fuel + 1, acc, c :: rest =>
    if sep c then acc.reverse :: splitRunsAux sep fuel [] (rest.dropWhile sep)
    else splitRunsAux sep fuel (c :: acc) rest

/-- Splitter on maximal runs of separator characters (the behaviour of JS
`split` with a one-or-more character-class regex such as `split` on runs of
whitespace): empty pieces appear only at the two ends of the text. -/
def splitRuns (sep : Char → Bool) (s : Str) : List Str :=
  splitRunsAux sep (s.length + 1) [] s

/-- JS `query.split` on one-or-more whitespace (the word split used by
`countExactMatches` and `countTitleMatches`). -/
def splitWs (s : Str) : List Str := splitRuns Char.isWhitespace s

/-- A word character in the sense of the JS regex `\w` and of the `natural`
word tokenizer: ASCII letter, digit or underscore. -/
def isWordChar (c : Char) : Bool := c.isAlphanum || c = '_'

/-- Model of `natural`'s `WordTokenizer.tokenize`: maximal runs of word
characters, empty pieces discarded. -/
def tokenize (s : Str) : List Str :=
  (splitRuns (fun c => !isWordChar c) s).filter (fun w => !w.isEmpty)

/-- Scan for `countOcc`, structurally recursive on a fuel bound; each step
consumes at least one character, so `length + 1` fuel always suffices. -/
def countOccAux (pat : Str) : Nat → Str → Nat
  | 0, _ => 0
  | _ + 1, [] => 0
  | fuel + 1, c :: rest =>
    if pat.isPrefixOf (c :: rest) then 1 + countOccAux pat fuel (rest.drop (pat.length - 1))
    else countOccAux pat fuel rest

/-- Count of the non-overlapping, left-to-right occurrences of a literal
pattern, as produced by a JS global regex `match` on the escaped pattern
(`countExactMatches`' phrase count).  An empty pattern matches at every
position, as in JS. -/
def countOcc (pat : Str) (text : Str) : Nat :=
  if pat.isEmpty then text.length + 1
  else countOccAux pat (text.length + 1) text

/-- Whether the character at position `p` of `text` is a word character
(out-of-range counts as non-word), for the JS `\b` assertion. -/
def wordAt (text : Str) (p : Nat) : Bool :=
  match text.drop p with
  | [] => false
  | c :: _ => isWordChar c

/-- The JS word-boundary assertion `\b` at position `p` of `text`. -/
def boundaryAt (text : Str) (p : Nat) : Bool :=
  (if p = 0 then false else wordAt text (p - 1)) != wordAt text p

/-- Left-to-right scan counting matches of the regex built from a word wrapped
in a pair of word-boundary assertions, with the non-overlapping advance of a
JS global regex.  `fuel` bounds the scan; `text.length + 1` positions exist. -/
def wholeWordScan (word text : Str) (p : Nat) : Nat → Nat
  | 0 => 0
  | fuel + 1 =>
    if text.length < p then 0
    else if word.isPrefixOf (text.drop p) && boundaryAt text p &&
            boundaryAt text (p + word.length) then
      1 + wholeWordScan word text (p + max 1 word.length) fuel
    else wholeWordScan word text (p + 1) fuel

/-- Count of whole-word occurrences of `word` in `text`: the number of global
matches of the word between two word-boundary assertions
(`countExactMatches`' per-word count). -/
def wholeWordCount (word text : Str) : Nat :=
  wholeWordScan word text 0 (text.length + 1)

/-- Greedy subsequence test: the characters of `w` appear in `text` in order,
with arbitrary gaps. -/
def isSubseq : Str → Str → Bool
  | [], _ => true
  | _ :: _, [] => false
  | a :: as, b :: bs => if a = b then isSubseq as bs else isSubseq (a :: as) bs

/-- JS newline-class characters, which the dot of the loose pattern built in
`countPartialMatches` (`word.split.join` with dot-star gaps) cannot match. -/
def isNlChar (c : Char) : Bool :=
  c = '\n' || c = '\r' || c = (Char.ofNat 8232) || c = (Char.ofNat 8233)

/-- Model of the loose letters-in-order regex test of `countPartialMatches`:
the letters of `word` appear in order within one newline-free stretch of
`text` (the gaps of the generated pattern are dots, which do not cross
newlines). -/
def gapMatch (word text : Str) : Bool :=
  (splitRuns isNlChar text).any (fun seg => isSubseq word seg)

/-- Insertion-order deduplication, the behaviour of a JS `Set` spread. -/
def dedupStr (seen : List Str) : List Str → List Str
  | [] => []
  | x :: xs => if x ∈ seen then dedupStr seen xs else x :: dedupStr (x :: seen) xs

/-- JS `a || b` on possibly-undefined strings: the empty string is falsy. -/
def jsOr (a b : Option Str) : Option Str :=
  match a with
  | some s => if s.isEmpty then b else some s
  | none => b

/-- JS `a || ''` on a possibly-undefined string. -/
def orEmpty (a : Option Str) : Str := (jsOr a (some [])).getD []

/-- JS `a || d` with a non-empty string literal default `d`. -/
def orDefault (a : Option Str) (d : Str) : Str := (jsOr a (some d)).getD []

/-- JS `a || d` on a possibly-undefined number: `0` is falsy. -/
def jsOrNum (a : Option ℚ) (d : ℚ) : ℚ :=
  match a with
  | some q => if q = 0 then d else q
  | none => d

/-- The JS numbers reachable in `getDocumentStats`: NaN, the two infinities,
and finite values (modelled as rationals). -/
inductive JNum where
  | nan
  | pinf
  | ninf
  | fin (q : ℚ)
deriving DecidableEq

/-- JS division on `JNum` (only finite inputs occur in the code; the zero
denominator cases follow IEEE: `0/0` is NaN, `q/0` is a signed infinity). -/
def jdiv : JNum → JNum → JNum
  | .fin a, .fin b =>
    if b = 0 then (if a = 0 then .nan else if 0 < a then .pinf else .ninf)
    else .fin (a / b)
  | .nan, _ => .nan
  | _, .nan => .nan
  | _, _ => .nan

/-- JS multiplication on `JNum` (IEEE: NaN propagates, infinity times zero is
NaN, otherwise infinities keep the product's sign). -/
def jmul : JNum → JNum → JNum
  | .nan, _ => .nan
  | _, .nan => .nan
  | .fin a, .fin b => .fin (a * b)
  | .pinf, .fin b => if b = 0 then .nan else if 0 < b then .pinf else .ninf
  | .fin b, .pinf => if b = 0 then .nan else if 0 < b then .pinf else .ninf
  | .ninf, .fin b => if b = 0 then .nan else if 0 < b then .ninf else .pinf
  | .fin b, .ninf => if b = 0 then .nan else if 0 < b then .ninf else .pinf
  | .pinf, .pinf => .pinf
  | .ninf, .ninf => .pinf
  | .pinf, .ninf => .ninf
  | .ninf, .pinf => .ninf

/-- JS `Math.round`: round half toward positive infinity; NaN and the
infinities pass through. -/
def jround : JNum → JNum
  | .nan => .nan
  | .pinf => .pinf
  | .ninf => .ninf
  | .fin q => .fin ((⌊q + 1 / 2⌋ : ℤ) : ℚ)

/-- JS `Math.max` over a spread list of finite numbers: the empty spread
yields negative infinity. -/
def jmaxList : List ℚ → JNum
  | [] => .ninf
  | q :: rest => .fin (rest.foldl max q)

/-- JS truthiness of a `JNum`: `0` and NaN are falsy, everything else
(including the infinities) is truthy. -/
def jtruthy : JNum → Bool
  | .nan => false
  | .fin q => decide (q ≠ 0)
  | _ => true

/-- JS `a || d` on a `JNum`. -/
def jnumOr (a d : JNum) : JNum := if jtruthy a then a else d

/-- One input section record as found in the processed JSON files: every field
may be absent (`undefined`). -/
structure RawSection where
  section_title : Option Str := none
  title : Option Str := none
  text : Option Str := none
  content : Option Str := none
  section_number : Option Str := none
  sectionId : Option Str := none
  standard : Option Str := none
  section_type : Option Str := none
  quality_score : Option ℚ := none
  cross_references : Option (List Str) := none
  level : Option ℚ := none
  parent_chain : Option (List Str) := none
  page_start : Option ℚ := none
  page_end : Option ℚ := none
deriving DecidableEq

/-- The metadata of an old-structure document object (`metadata` and
`processing_stats` sub-objects, each field possibly absent). -/
structure OldDocMeta where
  metaTitle : Option Str := none
  metaStandardType : Option Str := none
  metaTotalPages : Option ℚ := none
  statsTotalSections : Option ℚ := none
  statsValidSections : Option ℚ := none
  statsSuccessRate : Option ℚ := none
deriving DecidableEq

/-- An old-structure document: an object with an optional `sections` list and
metadata. -/
structure OldDoc where
  sections : Option (List RawSection) := none
  meta : OldDocMeta := {}
deriving DecidableEq

/-- A parsed document: either the new structure (a direct array of sections)
or the old structure (an object). -/
inductive JsDoc where
  | arr (sections : List RawSection)
  | obj (o : OldDoc)
deriving DecidableEq

/-- The per-standard document store (`documents`); the `unknown` slot models
the key created dynamically for files matching no known standard. -/
structure Documents where
  pmbok : Option JsDoc := none
  prince2 : Option JsDoc := none
  iso : Option JsDoc := none
  unknown : Option JsDoc := none
deriving DecidableEq

/-- One entry of `sectionsIndex` as pushed by `indexDocument`. -/
structure IndexedSection where
  standardType : Str
  sectionId : Option Str
  title : Option Str
  content : Option Str
  sectionType : Str
  qualityScore : ℚ
  crossReferences : List Str
  level : Option ℚ
  parent_chain : Option (List Str)
  page_start : Option ℚ
  page_end : Option ℚ
  section_number : Option Str
  section_title : Option Str
  standard : Option Str
  text : Option Str
  documentIndex : Nat
deriving DecidableEq

/-- The entry `indexDocument` pushes onto `sectionsIndex` for one raw section,
given the lower-case standard key and the TF-IDF document position. -/
def mkIndexed (s : RawSection) (standardKey : Str) (docIdx : Nat) : IndexedSection where
  standardType := orDefault s.standard (upperStr standardKey)
  sectionId := jsOr s.section_number s.sectionId
  title := jsOr s.section_title s.title
  content := jsOr s.text s.content
  sectionType := orDefault s.section_type (str "section")
  qualityScore := jsOrNum s.quality_score (4 / 5)
  crossReferences := s.cross_references.getD []
  level := s.level
  parent_chain := s.parent_chain
  page_start := s.page_start
  page_end := s.page_end
  section_number := s.section_number
  section_title := s.section_title
  standard := s.standard
  text := s.text
  documentIndex := docIdx

/-- The seven keywords of the load-time exclusion in `indexDocument`. -/
def loadExcludeKeywords : List Str :=
  [str "index", str "appendix", str "appendices", str "table of contents",
   str "contents", str "bibliography", str "references"]

/-- The load-time noise test of `indexDocument`: the lower-cased title
contains a keyword, or the lower-cased content starts with one (no
trimming at load time). -/
def loadExcluded (s : RawSection) : Bool :=
  let title := lowerStr (orEmpty (jsOr s.section_title s.title))
  let content := lowerStr (orEmpty (jsOr s.text s.content))
  loadExcludeKeywords.any (fun kw => hasSubstr kw title || kw.isPrefixOf content)

/-- `indexDocument`'s treatment of one section: skipped when `text` is absent
or shorter than 50 characters, skipped when the load-time noise test fires,
otherwise indexed at the next TF-IDF position. -/
def indexOne (s : RawSection) (standardKey : Str) (docIdx : Nat) : Option IndexedSection :=
  match s.text with
  | none => none
  | some t =>
    if t.length < 50 then none
    else if loadExcluded s then none
    else some (mkIndexed s standardKey docIdx)

/-- The indexing loop of `indexDocument` over a section list: the TF-IDF
document position advances only when a section is actually indexed. -/
def indexSections (standardKey : Str) : List RawSection → Nat → List IndexedSection
  | [], _ => []
  | s :: rest, n =>
    match indexOne s standardKey n with
    | none => indexSections standardKey rest n
    | some e => e :: indexSections standardKey rest (n + 1)

/-- The section list `indexDocument` iterates: a direct array, or the
`sections` field of the old structure defaulted to the empty list. -/
def docSections : JsDoc → List RawSection
  | .arr l => l
  | .obj o => o.sections.getD []

/-- `SearchEngine.indexDocument document standardType` starting at TF-IDF
position `n`. -/
def indexDocument (doc : JsDoc) (standardKey : Str) (n : Nat) : List IndexedSection :=
  indexSections standardKey (docSections doc) n

/-- One file of the processed-data directory as seen by `loadDocuments`:
its name, and the parse outcome (`none` models `JSON.parse` or the file read
throwing — a malformed or unreadable record set). -/
structure LoadFile where
  fname : Str
  parsed : Option JsDoc
deriving DecidableEq

/-- The four possible standard keys derived from a file name. -/
inductive StdKey where
  | pmbok
  | prince2
  | iso
  | unknown
deriving DecidableEq

/-- `loadDocuments`' filename classification. -/
def classifyFile (fname : Str) : StdKey :=
  if hasSubstr (str "pmbok") fname then .pmbok
  else if hasSubstr (str "prince2") fname then .prince2
  else if hasSubstr (str "iso") fname then .iso
  else .unknown

/-- The lower-case standard key string passed to `indexDocument`. -/
def stdKeyName : StdKey → Str
  | .pmbok => str "pmbok"
  | .prince2 => str "prince2"
  | .iso => str "iso"
  | .unknown => str "unknown"

/-- `documents[standardType] = data`. -/
def setDoc (d : Documents) (k : StdKey) (v : JsDoc) : Documents :=
  match k with
  | .pmbok => { d with pmbok := some v }
  | .prince2 => { d with prince2 := some v }
  | .iso => { d with iso := some v }
  | .unknown => { d with unknown := some v }

/-- The outcome of `loadDocuments`: the document store, the section index,
the size of the TF-IDF document list, and whether the catch block logged an
error.  The function always returns (the error is logged, never rethrown). -/
structure LoadResult where
  docs : Documents
  sectionsIndex : List IndexedSection
  tfidfCount : Nat
  errorLogged : Bool
deriving DecidableEq

/-- The `forEach` loop of `loadDocuments` under the single surrounding
`try`/`catch`: non-JSON files are skipped; a parse failure throws out of the
loop into the catch, which logs and returns — files after the failing one are
never processed. -/
def loadDocsAux (d : Documents) (idx : List IndexedSection) (n : Nat) :
    List LoadFile → LoadResult
  | [] => ⟨d, idx, n, false⟩
  | f :: rest =>
    if endsWith (str ".json") f.fname then
      match f.parsed with
      | none => ⟨d, idx, n, true⟩
      | some data =>
        let k := classifyFile f.fname
        let entries := indexDocument data (stdKeyName k) n
        loadDocsAux (setDoc d k data) (idx ++ entries) (n + entries.length) rest
    else loadDocsAux d idx n rest

/-- `SearchEngine.loadDocuments`, starting from the empty store and index. -/
def loadDocuments (files : List LoadFile) : LoadResult :=
  loadDocsAux {} [] 0 files

/-- The lower-cased `title || section_title || ''` of an index entry, used by
the scorer's title matching and by `isAppendixOrIndex`. -/
def entryTitle (s : IndexedSection) : Str :=
  lowerStr (orEmpty (jsOr s.title s.section_title))

/-- The lower-cased `content || text || ''` of an index entry, used by
`isAppendixOrIndex`. -/
def entryContent (s : IndexedSection) : Str :=
  lowerStr (orEmpty (jsOr s.content s.text))

/-- The lower-cased concatenated "title, space, content" text an index entry
is matched against in `countExactMatches`, `countPartialMatches` and
`getMatchedTerms`. -/
def entryText (s : IndexedSection) : Str :=
  lowerStr (orEmpty (jsOr s.title s.section_title) ++ ' ' :: orEmpty (jsOr s.content s.text))

/-- `SearchEngine.countExactMatches`: twice the number of verbatim
occurrences of the query phrase in the entry text, plus the whole-word
occurrence counts of every whitespace-delimited query word. -/
def countExactMatches (query : Str) (s : IndexedSection) : Nat :=
  let text := entryText s
  let queryLower := lowerStr query
  let exact := countOcc queryLower text
  let wordMatches := (splitWs queryLower).foldl (fun acc w => acc + wholeWordCount w text) 0
  exact * 2 + wordMatches

/-- `SearchEngine.countPartialMatches` over the tokenized query words: one
point per word occurring as a substring of the entry text, plus half a point
per word whose letters appear in order in the text. -/
def countPartialMatches (queryWords : List Str) (s : IndexedSection) : ℚ :=
  let text := entryText s
  queryWords.foldl
    (fun acc w =>
      let acc1 := if hasSubstr (lowerStr w) text then acc + 1 else acc
      if gapMatch w text then acc1 + 1 / 2 else acc1)
    0

/-- `SearchEngine.countTitleMatches`: three points when the whole query
phrase occurs in the entry title, plus one point per whitespace-delimited
query word occurring in the title. -/
def countTitleMatches (query : Str) (s : IndexedSection) : Nat :=
  let title := entryTitle s
  let queryLower := lowerStr query
  let base := if hasSubstr queryLower title then 3 else 0
  (splitWs queryLower).foldl (fun acc w => if hasSubstr w title then acc + 1 else acc) base

/-- The four keywords of the query-time noise classifier
`isAppendixOrIndex`. -/
def queryExcludeKeywords : List Str :=
  [str "index", str "appendix", str "appendices", str "references"]

/-- `SearchEngine.isAppendixOrIndex`: the title contains one of the four
keywords (or starts with the upper-cased first letter of one — vacuous on a
lower-cased title), or the trimmed content starts with one of them. -/
def isAppendixOrIndex (s : IndexedSection) : Bool :=
  let title := entryTitle s
  let content := entryContent s
  let titleHit := queryExcludeKeywords.any (fun kw =>
    hasSubstr kw title ||
    (match kw with
     | [] => ([] : Str)
     | c :: _ => [upChar c]).isPrefixOf title)
  let contentHit := queryExcludeKeywords.any (fun kw =>
    kw.isPrefixOf (lowerStr (trimStr content)))
  titleHit || contentHit

/-- `SearchEngine.getMatchedTerms`: the deduplicated query words whose
lower-case form, or stemmed lower-case form, occurs in the entry text. -/
def getMatchedTerms (stem : Str → Str) (queryWords : List Str) (s : IndexedSection) : List Str :=
  let text := entryText s
  dedupStr [] (queryWords.filter (fun term =>
    hasSubstr (lowerStr term) text || hasSubstr (stem (lowerStr term)) text))

/-- The scoring fields attached to a retained result. -/
structure ScoreInfo where
  score : ℚ
  exactMatches : Nat
  partialMatches : ℚ
  titleMatches : Nat
  matchedTerms : List Str
deriving DecidableEq

/-- A scored section as pushed onto the candidate list by `search`. -/
structure ScoredResult where
  sec : IndexedSection
  info : ScoreInfo
deriving DecidableEq

/-- A result as returned to the caller: the section fields plus, unless the
`hideScores` option stripped them, the scoring fields. -/
structure ResultItem where
  sec : IndexedSection
  info : Option ScoreInfo
deriving DecidableEq

/-- Conversion of a retained candidate to a returned result, stripping the
scoring fields when `hideScores` is set. -/
def toItem (hide : Bool) (r : ScoredResult) : ResultItem :=
  ⟨r.sec, if hide then none else some r.info⟩

/-- The composite score of `search`: the TF-IDF sum over the stemmed query
terms plus the weighted exact (2.0), loose (0.3) and title (1.5) bonuses. -/
def computeFinalScore (tf : Str → Nat → ℚ) (queryTerms queryWords : List Str)
    (originalQuery : Str) (s : IndexedSection) : ℚ :=
  let totalScore := queryTerms.foldl (fun acc t => acc + tf t s.documentIndex) 0
  let exactBonus := (countExactMatches originalQuery s : ℚ) * 2
  let partialBonus := countPartialMatches queryWords s * (3 / 10)
  let titleBonus := (countTitleMatches originalQuery s : ℚ) * (3 / 2)
  totalScore + exactBonus + partialBonus + titleBonus

/-- The candidate record `search` builds for one section. -/
def scoreEntry (tf : Str → Nat → ℚ) (stem : Str → Str) (queryTerms queryWords : List Str)
    (originalQuery : Str) (s : IndexedSection) : ScoredResult :=
  ⟨s, ⟨computeFinalScore tf queryTerms queryWords originalQuery s,
       countExactMatches originalQuery s,
       countPartialMatches queryWords s,
       countTitleMatches originalQuery s,
       getMatchedTerms stem queryWords s⟩⟩

/-- The retention step of `search`: the scored section is kept when the
composite score reaches `minScore`, or it has an exact match, or it has a
title match. -/
def scoreSection (tf : Str → Nat → ℚ) (stem : Str → Str) (queryTerms queryWords : List Str)
    (originalQuery : Str) (minScore : ℚ) (s : IndexedSection) : Option ScoredResult :=
  let r := scoreEntry tf stem queryTerms queryWords originalQuery s
  if minScore ≤ r.info.score ∨ 0 < r.info.exactMatches ∨ 0 < r.info.titleMatches then some r
  else none

/-- The options record of `search`, with the destructuring defaults of the
code (`maxResults` 10, `minScore` 0.05, appendix exclusion on). -/
structure SearchOptions where
  standardType : Option Str := none
  maxResults : Nat := 10
  minScore : ℚ := 1 / 20
  sectionTypes : Option (List Str) := none
  excludeAppendix : Bool := true
  hideScores : Bool := false

/-- The standard filter of the scan loop (`standardType` set and different
from the entry's standard). -/
def stdFilterFails (o : Option Str) (s : IndexedSection) : Bool :=
  match o with
  | some st => decide (¬ s.standardType = st)
  | none => false

/-- The section-type filter of the scan loop. -/
def typeFilterFails (o : Option (List Str)) (s : IndexedSection) : Bool :=
  match o with
  | some ts => decide (¬ s.sectionType ∈ ts)
  | none => false

/-- The whole per-section step of `search`'s scan: the three filters, then
scoring and retention. -/
def sectionCandidate (tf : Str → Nat → ℚ) (stem : Str → Str) (queryTerms queryWords : List Str)
    (originalQuery : Str) (opts : SearchOptions) (s : IndexedSection) : Option ScoredResult :=
  if stdFilterFails opts.standardType s then none
  else if typeFilterFails opts.sectionTypes s then none
  else if opts.excludeAppendix && isAppendixOrIndex s then none
  else scoreSection tf stem queryTerms queryWords originalQuery opts.minScore s

/-- The candidate list `scores` accumulated by `search` over the index. -/
def searchCandidates (tf : Str → Nat → ℚ) (stem : Str → Str) (queryTerms queryWords : List Str)
    (originalQuery : Str) (opts : SearchOptions) (index : List IndexedSection) :
    List ScoredResult :=
  index.filterMap (sectionCandidate tf stem queryTerms queryWords originalQuery opts)

/-- Stable insertion of a later element into an already sorted-descending
list: it goes after every earlier element of greater or equal score. -/
def insertDesc (x : ScoredResult) : List ScoredResult → List ScoredResult
  | [] => [x]
  | y :: ys => if x.info.score ≤ y.info.score then y :: insertDesc x ys else x :: y :: ys

/-- The stable descending sort on composite score: `Array.prototype.sort`
with the `b.score - a.score` comparator is specified to be stable, and a
stable sort under a total preorder is a unique function, here realized as a
stable insertion sort. -/
def sortByScore (l : List ScoredResult) : List ScoredResult :=
  l.foldl (fun acc x => insertDesc x acc) []

/-- One step of the `resultsByStandard` accumulation: replace a standard's
best entry only on a strictly greater score, insert unseen standards at the
end (JS object insertion order). -/
def upsertBest (m : List (Str × ScoredResult)) (r : ScoredResult) :
    List (Str × ScoredResult) :=
  if m.any (fun p => p.1 = r.sec.standardType) then
    m.map (fun p =>
      if p.1 = r.sec.standardType ∧ p.2.info.score < r.info.score then (p.1, r) else p)
  else m ++ [(r.sec.standardType, r)]

/-- The grouped best-per-standard list of `search` (the values of
`resultsByStandard` in insertion order). -/
def groupBest (l : List ScoredResult) : List ScoredResult :=
  (l.foldl upsertBest []).map Prod.snd

/-- The record returned by `search`.  The `allResults` and `queryTerms`
fields are `Option` because the empty-query early return omits them (an
absent JS object field). -/
structure SearchOutput where
  results : List ResultItem
  allResults : Option (List ResultItem)
  query : Str
  totalResults : Nat
  queryTerms : Option (List Str)
deriving DecidableEq

/-- `SearchEngine.search query options` over a section index, with the TF-IDF
model `tf` and the stemmer `stem` as parameters. -/
def search (tf : Str → Nat → ℚ) (stem : Str → Str) (index : List IndexedSection)
    (query : Str) (opts : SearchOptions) : SearchOutput :=
  let originalQuery := lowerStr query
  let queryTerms := ((tokenize originalQuery).map stem).filter (fun t => 2 < t.length)
  let queryWords := (tokenize originalQuery).filter (fun t => 2 < t.length)
  if queryTerms.isEmpty && queryWords.isEmpty then
    ⟨[], none, query, 0, none⟩
  else
    let scores := searchCandidates tf stem queryTerms queryWords originalQuery opts index
    match opts.standardType with
    | none =>
      let sorted := sortByScore scores
      let allResults := sorted.take opts.maxResults
      let results := sortByScore (groupBest sorted)
      ⟨results.map (toItem opts.hideScores),
       some (allResults.map (toItem opts.hideScores)),
       query, scores.length, some queryWords⟩
    | some _ =>
      let results := (sortByScore scores).take opts.maxResults
      ⟨results.map (toItem opts.hideScores),
       some (results.map (toItem opts.hideScores)),
       query, scores.length, some queryWords⟩

/-- One per-standard summary entry of the comparison record. -/
structure SummaryEntry where
  totalResults : Nat
  hasResults : Bool
deriving DecidableEq

/-- The comparison record of `compareAcrossStandards`.  A per-standard list
field holds `some` of a list when the key is present on the returned JS
object — the code always initializes the three keys to empty lists, so
`none` (an absent key) is never produced; it exists so that "omitted from
the record" is expressible.  A summary field is `none` when the summary
object carries no entry for that standard. -/
structure CompareOutput where
  pmbok : Option (List ResultItem)
  prince2 : Option (List ResultItem)
  iso : Option (List ResultItem)
  query : Str
  summaryPmbok : Option SummaryEntry
  summaryPrince2 : Option SummaryEntry
  summaryIso : Option SummaryEntry
deriving DecidableEq

/-- The `standardMap` of `compareAcrossStandards` (and of the HTTP layer). -/
def standardMapName : StdKey → Str
  | .pmbok => str "PMBOK"
  | .prince2 => str "PRINCE2"
  | .iso => str "ISO_21502"
  | .unknown => str "unknown"

/-- One standard's step of `compareAcrossStandards`: skipped entirely (the
initialized empty list kept, no summary entry) when the standard has no
loaded document; otherwise a search filtered to that standard with
`maxResults` forced to 1, scores stripped from the results, and a summary
entry recording presence of candidates. -/
def compareOne (tf : Str → Nat → ℚ) (stem : Str → Str) (index : List IndexedSection)
    (query : Str) (opts : SearchOptions) (docOpt : Option JsDoc) (mapped : Str) :
    Option (List ResultItem) × Option SummaryEntry :=
  match docOpt with
  | none => (some [], none)
  | some _ =>
    let sr := search tf stem index query
      { opts with standardType := some mapped, maxResults := 1 }
    (some (sr.results.map (fun r => ⟨r.sec, none⟩)),
     some ⟨if 0 < sr.totalResults then 1 else 0, decide (0 < sr.results.length)⟩)

/-- `SearchEngine.compareAcrossStandards query options`. -/
def compareAcrossStandards (tf : Str → Nat → ℚ) (stem : Str → Str) (docs : Documents)
    (index : List IndexedSection) (query : Str) (opts : SearchOptions) : CompareOutput :=
  let p := compareOne tf stem index query opts docs.pmbok (standardMapName .pmbok)
  let r := compareOne tf stem index query opts docs.prince2 (standardMapName .prince2)
  let i := compareOne tf stem index query opts docs.iso (standardMapName .iso)
  ⟨p.1, r.1, i.1, query, p.2, r.2, i.2⟩

/-- One per-standard record of `getDocumentStats`. -/
structure StatsEntry where
  title : Str
  standardType : Str
  totalSections : ℚ
  validSections : ℚ
  successRate : JNum
  totalPages : JNum
deriving DecidableEq

/-- The validity filter of the new-structure branch of `getDocumentStats`:
`text` present, non-empty and of length at least 50. -/
def statsValid (s : RawSection) : Bool :=
  match s.text with
  | none => false
  | some t => !t.isEmpty && decide (50 ≤ t.length)

/-- `getDocumentStats` for one loaded document under its store key. -/
def statsForDoc (key : Str) : JsDoc → StatsEntry
  | .arr l =>
    let valid := l.filter statsValid
    let maxPage := jmaxList (l.map (fun s => jsOrNum s.page_end (jsOrNum s.page_start 0)))
    { title := orDefault (l.head?.bind (fun s => s.standard)) (upperStr key)
      standardType := orDefault (l.head?.bind (fun s => s.standard)) (upperStr key)
      totalSections := (l.length : ℚ)
      validSections := (valid.length : ℚ)
      successRate := jround (jmul (jdiv (.fin (valid.length : ℚ)) (.fin (l.length : ℚ)))
        (.fin 100))
      totalPages := jnumOr maxPage (.fin 0) }
  | .obj o =>
    { title := orDefault o.meta.metaTitle (upperStr key)
      standardType := orDefault o.meta.metaStandardType (upperStr key)
      totalSections := jsOrNum o.meta.statsTotalSections 0
      validSections := jsOrNum o.meta.statsValidSections 0
      successRate := .fin (jsOrNum o.meta.statsSuccessRate 0)
      totalPages := .fin (jsOrNum o.meta.metaTotalPages 0) }

/-- The per-standard statistics record of `getDocumentStats` (a key appears
only for loaded documents). -/
structure StatsOutput where
  pmbok : Option StatsEntry
  prince2 : Option StatsEntry
  iso : Option StatsEntry
  unknown : Option StatsEntry
deriving DecidableEq

/-- `SearchEngine.getDocumentStats` over the document store. -/
def getDocumentStats (docs : Documents) : StatsOutput :=
  ⟨docs.pmbok.map (statsForDoc (str "pmbok")),
   docs.prince2.map (statsForDoc (str "prince2")),
   docs.iso.map (statsForDoc (str "iso")),
   docs.unknown.map (statsForDoc (str "unknown"))⟩

/-- Concrete TF-IDF model assigning weight zero everywhere, for witnesses and
counterexamples (the heuristic bonuses are then the whole score). -/
def tf0 : Str → Nat → ℚ := fun _ _ => 0

/-- Concrete stemmer (the identity), for witnesses and counterexamples. -/
def stem0 : Str → Str := id

/-- Concrete input section: a PMBOK risk-planning section. -/
def secRiskA : RawSection :=
  { section_title := some (str "Risk Planning")
    standard := some (str "PMBOK")
    text := some (str "risk planning involves identifying risks and preparing responses in advance of execution") }

/-- Concrete input section: a PRINCE2 risk-theme section. -/
def secRiskB : RawSection :=
  { section_title := some (str "Risk Theme")
    standard := some (str "PRINCE2")
    text := some (str "the risk theme provides an approach to identify assess and control uncertainty during the project") }

/-- Concrete load input: one well-formed PMBOK file and one well-formed
PRINCE2 file. -/
def loadedAB : LoadResult :=
  loadDocuments [⟨str "pmbok.json", some (.arr [secRiskA])⟩,
                 ⟨str "prince2.json", some (.arr [secRiskB])⟩]

/-- Concrete input section realizing the spec's scenario: title
"Appendix A: Glossary" with a 200-character body. -/
def secAppendix : RawSection :=
  { section_title := some (str "Appendix A: Glossary")
    standard := some (str "PMBOK")
    text := some (str "this glossary collects the defined terms used across the document and explains each of them briefly so that a reader can find the meaning of any term quickly without searching the whole body of texts.") }

/-- Concrete input section whose text repeats the short word "of", for
separating the two readings of "raw query word" in the scoring formula. -/
def secOfRisk : RawSection :=
  { section_title := some (str "Risk")
    standard := some (str "PMBOK")
    text := some (str "management of risk is part of the plan of work and of value for all teams") }

/-- Concrete index entry whose title contains "bibliography" (such a section
never reaches the index, but the query-time classifier is a function of an
arbitrary entry). -/
def secBibliography : IndexedSection :=
  mkIndexed
    { section_title := some (str "Bibliography")
      text := some (str "this chapter lists the works cited throughout the entire volume") }
    (str "pmbok") 0

/-- The composite score as the specification words it (claim C5): the TF-IDF
sum over the stemmed query terms, plus 2.0 times (2 per verbatim phrase
occurrence plus the whole-word occurrences of each raw query word), plus 0.3
times (1 per raw query word occurring as a substring plus 0.5 per raw query
word matching loosely), plus 1.5 times (3 for the phrase in the title plus 1
per raw query word in the title) — where "raw query word" is the
specification's raw-word list: the tokenized words of length above two. -/
def specCompositeScore (tf : Str → Nat → ℚ) (queryTerms queryWords : List Str)
    (originalQuery : Str) (s : IndexedSection) : ℚ :=
  let text := entryText s
  let title := entryTitle s
  let q := lowerStr originalQuery
  let tfSum := (queryTerms.map (fun t => tf t s.documentIndex)).sum
  let exactPart : ℚ :=
    2 * countOcc q text + ((queryWords.map (fun w => wholeWordCount w text)).sum : ℚ)
  let partialPart : ℚ :=
    ((queryWords.filter (fun w => hasSubstr (lowerStr w) text)).length : ℚ)
      + (1 / 2) * ((queryWords.filter (fun w => gapMatch w text)).length : ℚ)
  let titlePart : ℚ :=
    (if hasSubstr q title then 3 else 0)
      + ((queryWords.filter (fun w => hasSubstr w title)).length : ℚ)
  tfSum + 2 * exactPart + (3 / 10) * partialPart + (3 / 2) * titlePart

/-- Concrete document store for the comparison claims: PMBOK loaded with one
risk section, the other standards never loaded. -/
def docsOnlyPmbok : Documents :=
  { pmbok := some (.arr [secRiskA]) }

/-- Concrete document store holding one loaded standard whose section array
is empty. -/
def docsEmptyArr : Documents :=
  { pmbok := some (.arr []) }

/-- The conjunction of the three query-time filters of `search`'s scan loop,
as a predicate (the sections that reach the scoring step). -/
def passesFilters (opts : SearchOptions) (s : IndexedSection) : Bool :=
  !stdFilterFails opts.standardType s && !typeFilterFails opts.sectionTypes s &&
    !(opts.excludeAppendix && isAppendixOrIndex s)

/-- The retention rule of the specification, as a predicate on a scored
candidate: composite score at least the minimum-score threshold, or at least
one exact match, or at least one title match. -/
def retainRule (minScore : ℚ) (r : ScoredResult) : Bool :=
  decide (minScore ≤ r.info.score ∨ 0 < r.info.exactMatches ∨ 0 < r.info.titleMatches)

/-- Concrete options with a result cap of one. -/
def c3opts : SearchOptions := { maxResults := 1 }

/-- Concrete load input whose second file is malformed: a well-formed PMBOK
file, an unparseable PRINCE2 file, a well-formed ISO file. -/
def filesWithBad : List LoadFile :=
  [⟨str "pmbok.json", some (.arr [secRiskA])⟩,
   ⟨str "prince2.json", none⟩,
   ⟨str "iso.json", some (.arr [secRiskB])⟩]

/-- The tokenized raw-word list of the query "of risk" (just "risk": the
two-letter word is dropped by the length filter). -/
def c5words : List Str := (tokenize (lowerStr (str "of risk"))).filter (fun t => 2 < t.length)

/-- The per-standard slot contract of the amended comparison claim: an
unloaded standard keeps its initialized empty result list and gets no summary
entry; a loaded standard gets at most one result, a summary entry whose
`hasResults` flag is equivalent to a non-empty result list, and a normalized
total of one exactly when the standard-filtered search had any candidate. -/
def slotSpec (tf : Str → Nat → ℚ) (stem : Str → Str) (index : List IndexedSection)
    (query : Str) (opts : SearchOptions) (docOpt : Option JsDoc) (mapped : Str)
    (slot : Option (List ResultItem)) (sum : Option SummaryEntry) : Prop :=
  (docOpt = none → slot = some [] ∧ sum = none)
  ∧ (docOpt.isSome →
      ∃ l e, slot = some l ∧ sum = some e ∧ l.length ≤ 1
        ∧ (e.hasResults = true ↔ l ≠ [])
        ∧ e.totalResults =
            (if 0 < (search tf stem index query
                { opts with standardType := some mapped, maxResults := 1 }).totalResults
             then 1 else 0))

lemma foldl_add_nat (f : Str → ℕ) (l : List Str) (a : ℕ) :
    l.foldl (fun acc w => acc + f w) a = a + (l.map f).sum := by
  induction l generalizing a with
  | nil => simp
  | cons x xs ih => simp [ih, Nat.add_assoc]

lemma foldl_add_rat (f : Str → ℚ) (l : List Str) (a : ℚ) :
    l.foldl (fun acc t => acc + f t) a = a + (l.map f).sum := by
  induction l generalizing a with
  | nil => simp
  | cons x xs ih => simp [ih, add_assoc]

lemma foldl_count_if (p : Str → Bool) (l : List Str) (a : ℕ) :
    l.foldl (fun acc w => if p w then acc + 1 else acc) a = a + (l.filter p).length := by
  induction l generalizing a with
  | nil => simp
  | cons x xs ih =>
    by_cases h : p x
    · simp [h, ih]
      omega
    · simp [h, ih]

lemma foldl_partial_pair (pw gw : Str → Bool) (l : List Str) (a : ℚ) :
    l.foldl (fun acc w =>
      let acc1 := if pw w then acc + 1 else acc
      if gw w then acc1 + 1 / 2 else acc1) a
    = a + ((l.filter pw).length : ℚ) + (1 / 2) * ((l.filter gw).length : ℚ) := by
  induction l generalizing a with
  | nil => simp
  | cons x xs ih =>
    by_cases h1 : pw x <;> by_cases h2 : gw x <;>
      simp only [List.foldl_cons, List.filter_cons, h1, h2, if_true, if_false, ih,
        List.length_cons] <;> push_cast <;> ring

/-- C5: the composite score is claimed to weigh, at 2.0 and 1.5, whole-word
and title counts taken over the raw query words (the tokenized words of
length above two).  The code instead takes those two counts over the
whitespace-split words of the query, which also include the short words; on
the query "of risk" against a section whose text repeats "of", the claimed
formula and the computed score differ. -/
theorem claim5_counterexample :
    computeFinalScore tf0 c5words c5words (lowerStr (str "of risk"))
        (mkIndexed secOfRisk (str "pmbok") 0)
      ≠ specCompositeScore tf0 c5words c5words (lowerStr (str "of risk"))
        (mkIndexed secOfRisk (str "pmbok") 0) := by
  decide

/-- C5 (amended): the composite score equals the TF-IDF sum over the stemmed
query terms, plus 2.0 times (2 per verbatim phrase occurrence plus the
whole-word occurrences of each whitespace-delimited query word), plus 0.3
times (1 per raw query word occurring as a substring plus 0.5 per raw query
word whose letters-in-order pattern matches), plus 1.5 times (3 when the
phrase occurs in the title plus 1 per whitespace-delimited query word in the
title) — the word counts of the exact and title bonuses run over the
whitespace-split query words, not over the tokenized raw-word list. -/
theorem claim5_theorem (tf : Str → Nat → ℚ) (queryTerms queryWords : List Str)
    (originalQuery : Str) (s : IndexedSection) :
    computeFinalScore tf queryTerms queryWords originalQuery s =
      (queryTerms.map (fun t => tf t s.documentIndex)).sum
      + 2 * (2 * (countOcc (lowerStr originalQuery) (entryText s) : ℚ)
          + (((splitWs (lowerStr originalQuery)).map
              (fun w => wholeWordCount w (entryText s))).sum : ℚ))
      + (3 / 10) * (((queryWords.filter (fun w => hasSubstr (lowerStr w) (entryText s))).length : ℚ)
          + (1 / 2) * ((queryWords.filter (fun w => gapMatch w (entryText s))).length : ℚ))
      + (3 / 2) * ((if hasSubstr (lowerStr originalQuery) (entryTitle s) then (3 : ℚ) else 0)
          + (((splitWs (lowerStr originalQuery)).filter
              (fun w => hasSubstr w (entryTitle s))).length : ℚ)) := by
  simp only [computeFinalScore, countExactMatches, countPartialMatches, countTitleMatches,
    foldl_add_rat, foldl_add_nat, foldl_partial_pair, foldl_count_if]
  push_cast [apply_ite (fun n : ℕ => (n : ℚ))]
  ring

/-- C6: a scored section is retained as a candidate exactly when its
composite score reaches the caller's minimum-score threshold, or it has at
least one exact match, or it has at least one title match: the candidate
list is the filter of the scored, query-time-filtered sections by that
rule. -/
theorem claim6_theorem (tf : Str → Nat → ℚ) (stem : Str → Str)
    (queryTerms queryWords : List Str) (originalQuery : Str)
    (opts : SearchOptions) (index : List IndexedSection) :
    searchCandidates tf stem queryTerms queryWords originalQuery opts index =
      ((index.filter (passesFilters opts)).map
        (scoreEntry tf stem queryTerms queryWords originalQuery)).filter
        (retainRule opts.minScore) := by
  induction index with
  | nil => rfl
  | cons s rest ih =>
    simp only [searchCandidates, List.filterMap_cons] at ih ⊢
    by_cases h1 : stdFilterFails opts.standardType s
    · simp [sectionCandidate, h1, passesFilters, ih]
    · by_cases h2 : typeFilterFails opts.sectionTypes s
      · simp [sectionCandidate, h1, h2, passesFilters, ih]
      · by_cases h3 : (opts.excludeAppendix && isAppendixOrIndex s) = true
        · simp [sectionCandidate, h1, h2, h3, passesFilters, ih]
        · by_cases h4 :
            opts.minScore ≤ (scoreEntry tf stem queryTerms queryWords originalQuery s).info.score
            ∨ 0 < (scoreEntry tf stem queryTerms queryWords originalQuery s).info.exactMatches
            ∨ 0 < (scoreEntry tf stem queryTerms queryWords originalQuery s).info.titleMatches
          · simp [sectionCandidate, scoreSection, h1, h2, h3, h4, passesFilters, retainRule, ih]
          · simp [sectionCandidate, scoreSection, h1, h2, h3, h4, passesFilters, retainRule, ih]

lemma length_insertDesc (x : ScoredResult) (l : List ScoredResult) :
    (insertDesc x l).length = l.length + 1 := by
  induction l with
  | nil => rfl
  | cons y ys ih => by_cases h : x.info.score ≤ y.info.score <;> simp [insertDesc, h, ih]

lemma length_sortByScore (l : List ScoredResult) : (sortByScore l).length = l.length := by
  have h : ∀ (l acc : List ScoredResult),
      (l.foldl (fun acc x => insertDesc x acc) acc).length = acc.length + l.length := by
    intro l
    induction l with
    | nil => intro acc; simp
    | cons x xs ih =>
      intro acc
      rw [List.foldl_cons, ih, length_insertDesc]
      simp only [List.length_cons]
      omega
  simpa [sortByScore] using h l []

lemma mem_insertDesc {x y : ScoredResult} {l : List ScoredResult} :
    y ∈ insertDesc x l ↔ y = x ∨ y ∈ l := by
  induction l with
  | nil => simp [insertDesc]
  | cons z zs ih =>
    by_cases h : x.info.score ≤ z.info.score
    · simp only [insertDesc, h, if_true, List.mem_cons, ih]
      tauto
    · simp only [insertDesc, h, if_false, List.mem_cons]

lemma mem_sortByScore {y : ScoredResult} {l : List ScoredResult} :
    y ∈ sortByScore l ↔ y ∈ l := by
  have h : ∀ (l acc : List ScoredResult),
      (y ∈ l.foldl (fun acc x => insertDesc x acc) acc ↔ y ∈ acc ∨ y ∈ l) := by
    intro l
    induction l with
    | nil => intro acc; simp
    | cons x xs ih =>
      intro acc
      rw [List.foldl_cons, ih]
      simp [mem_insertDesc]
      tauto
  simpa [sortByScore] using h l []

lemma upsertBest_snd_mem {m : List (Str × ScoredResult)} {r y : ScoredResult}
    (h : y ∈ (upsertBest m r).map Prod.snd) : y ∈ m.map Prod.snd ∨ y = r := by
  unfold upsertBest at h
  by_cases hc : m.any (fun p => p.1 = r.sec.standardType) = true
  · rw [if_pos hc] at h
    rw [List.map_map] at h
    rcases List.mem_map.1 h with ⟨p, hp, he⟩
    simp only [Function.comp_apply] at he
    by_cases hcond : p.1 = r.sec.standardType ∧ p.2.info.score < r.info.score
    · rw [if_pos hcond] at he
      exact Or.inr he.symm
    · rw [if_neg hcond] at he
      exact Or.inl (he ▸ List.mem_map_of_mem Prod.snd hp)
  · rw [if_neg hc] at h
    simp only [List.map_append, List.map_cons, List.map_nil] at h
    rcases List.mem_append.1 h with h' | h'
    · exact Or.inl h'
    · exact Or.inr (by simpa using h')

lemma upsertBest_length (m : List (Str × ScoredResult)) (r : ScoredResult) :
    (upsertBest m r).length ≤ m.length + 1 := by
  unfold upsertBest
  split <;> simp

lemma groupBest_subset {y : ScoredResult} {l : List ScoredResult} (h : y ∈ groupBest l) :
    y ∈ l := by
  have aux : ∀ (l : List ScoredResult) (m : List (Str × ScoredResult)),
      y ∈ (l.foldl upsertBest m).map Prod.snd → y ∈ m.map Prod.snd ∨ y ∈ l := by
    intro l
    induction l with
    | nil => intro m h'; exact Or.inl h'
    | cons x xs ih =>
      intro m h'
      rw [List.foldl_cons] at h'
      rcases ih _ h' with h'' | h''
      · rcases upsertBest_snd_mem h'' with h3 | rfl
        · exact Or.inl h3
        · exact Or.inr (by simp)
      · exact Or.inr (by simp [h''])
  rcases aux l [] h with h' | h'
  · simp at h'
  · exact h'

lemma groupBest_length_le (l : List ScoredResult) : (groupBest l).length ≤ l.length := by
  have aux : ∀ (l : List ScoredResult) (m : List (Str × ScoredResult)),
      (l.foldl upsertBest m).length ≤ m.length + l.length := by
    intro l
    induction l with
    | nil => intro m; simp
    | cons x xs ih =>
      intro m
      rw [List.foldl_cons]
      have h1 := ih (upsertBest m x)
      have h2 := upsertBest_length m x
      simp only [List.length_cons]
      omega
  simpa [groupBest] using aux l []

/-- C3: the claim that the returned `results` list never exceeds
`maxResults` fails: when no standard filter is supplied, `results` is the
best-per-standard list, which is not capped — with `maxResults` set to one
and matching sections in two standards, two results are returned. -/
theorem claim3_counterexample :
    ¬ ((search tf0 stem0 loadedAB.sectionsIndex (str "risk") c3opts).results.length
        ≤ c3opts.maxResults) := by
  decide

/-- C3 (amended): `totalResults` always bounds the length of `results`, and
`allResults` is always capped at `maxResults`; the cap on `results` itself
holds whenever a standard filter is supplied, but without one `results` is
the uncapped best-per-standard list (one entry per matched standard). -/
theorem claim3_theorem (tf : Str → Nat → ℚ) (stem : Str → Str)
    (index : List IndexedSection) (q : Str) (opts : SearchOptions) :
    (search tf stem index q opts).results.length ≤ (search tf stem index q opts).totalResults
    ∧ (∀ l, (search tf stem index q opts).allResults = some l → l.length ≤ opts.maxResults)
    ∧ (opts.standardType.isSome = true →
        (search tf stem index q opts).results.length ≤ opts.maxResults) := by
  by_cases he : ((((tokenize (lowerStr q)).map stem).filter (fun t => 2 < t.length)).isEmpty &&
      (((tokenize (lowerStr q)).filter (fun t => 2 < t.length))).isEmpty) = true
  · simp [search, he]
  · cases hstd : opts.standardType with
    | none =>
      refine ⟨?_, ?_, ?_⟩
      · simp only [search, he, Bool.false_eq_true, if_false, hstd]
        simp only [List.length_map, length_sortByScore]
        exact le_trans (groupBest_length_le _) (le_of_eq (length_sortByScore _))
      · intro l hl
        simp only [search, he, Bool.false_eq_true, if_false, hstd] at hl
        cases hl
        simp only [List.length_map]
        exact le_trans (List.length_take_le _ _) le_rfl
      · intro hs
        simp at hs
    | some st =>
      refine ⟨?_, ?_, ?_⟩
      · simp only [search, he, Bool.false_eq_true, if_false, hstd]
        simp only [List.length_map, List.length_take, length_sortByScore]
        exact min_le_right _ _
      · intro l hl
        simp only [search, he, Bool.false_eq_true, if_false, hstd] at hl
        cases hl
        simp only [List.length_map]
        exact List.length_take_le _ _
      · intro _
        simp only [search, he, Bool.false_eq_true, if_false, hstd]
        simp only [List.length_map]
        exact List.length_take_le _ _

/-- C3 witness: with a standard filter and a cap of one, the concrete search
returns at most one result. -/
theorem claim3_witness :
    (search tf0 stem0 loadedAB.sectionsIndex (str "risk")
      { standardType := some (str "PMBOK"), maxResults := 1 }).results.length ≤ 1 :=
  (claim3_theorem tf0 stem0 loadedAB.sectionsIndex (str "risk")
    { standardType := some (str "PMBOK"), maxResults := 1 }).2.2 rfl

/-- C7: on a whitespace-only query the early return produces only
`results`, `query` and `totalResults` — the record omits the `allResults`
field and the raw-word list, contradicting the claimed full output shape. -/
theorem claim7_counterexample :
    search tf0 stem0 loadedAB.sectionsIndex (str "   ") {} =
      ⟨[], none, str "   ", 0, none⟩ := by
  decide

/-- C7 (amended): whenever tokenization leaves both the stemmed-term list and
the raw-word list empty, `search` returns the empty result set with
`totalResults` zero without scoring any section, but the returned record
carries only `results`, the query and `totalResults`: `allResults` and the
raw-word list are omitted. -/
theorem claim7_theorem (tf : Str → Nat → ℚ) (stem : Str → Str)
    (index : List IndexedSection) (q : Str) (opts : SearchOptions)
    (h1 : ((tokenize (lowerStr q)).map stem).filter (fun t => 2 < t.length) = [])
    (h2 : (tokenize (lowerStr q)).filter (fun t => 2 < t.length) = []) :
    search tf stem index q opts = ⟨[], none, q, 0, none⟩ := by
  simp [search, h1, h2]

/-- C7 witness: the amended empty-query behaviour at the empty string. -/
theorem claim7_witness :
    search tf0 stem0 loadedAB.sectionsIndex (str "") {} = ⟨[], none, str "", 0, none⟩ :=
  claim7_theorem tf0 stem0 loadedAB.sectionsIndex (str "") {} (by decide) (by decide)

/-- C1: the noise classification is also applied at load time, so the claim
fails: the spec's own scenario section — title "Appendix A: Glossary", body
of 200 characters — is dropped by `indexDocument` and is absent from the
index, and a query with `excludeAppendix` disabled still cannot return it. -/
theorem claim1_counterexample :
    secAppendix.text.map List.length = some 200
    ∧ indexSections (str "pmbok") [secAppendix] 0 = []
    ∧ (search tf0 stem0 (indexSections (str "pmbok") [secAppendix] 0) (str "glossary")
        { excludeAppendix := false }).totalResults = 0 := by
  decide

/-- C1 (amended): a section with body text of at least 50 characters is
present in the index if and only if it also passes the load-time noise
filter (which always applies, under every option); the query-time noise
classification is applied only when `excludeAppendix` is enabled — with it
disabled, a section passing the standard and section-type filters is always
scored. -/
theorem claim1_theorem :
    (∀ (s : RawSection) (key : Str) (n : Nat) (t : Str), s.text = some t → 50 ≤ t.length →
       loadExcluded s = false → indexOne s key n = some (mkIndexed s key n))
    ∧ (∀ (s : RawSection) (key : Str) (n : Nat), loadExcluded s = true →
       indexOne s key n = none)
    ∧ (∀ (tf : Str → Nat → ℚ) (stem : Str → Str) (qt qw : List Str) (oq : Str)
        (opts : SearchOptions) (s : IndexedSection), opts.excludeAppendix = false →
        stdFilterFails opts.standardType s = false →
        typeFilterFails opts.sectionTypes s = false →
        sectionCandidate tf stem qt qw oq opts s =
          scoreSection tf stem qt qw oq opts.minScore s) := by
  refine ⟨?_, ?_, ?_⟩
  · intro s key n t ht hlen hex
    unfold indexOne
    rw [ht]
    have h50 : ¬ t.length < 50 := by omega
    simp [h50, hex]
  · intro s key n hex
    unfold indexOne
    cases hcase : s.text with
    | none => rfl
    | some t =>
      by_cases hlen : t.length < 50
      · simp [hlen]
      · simp [hlen, hex]
  · intro tf stem qt qw oq opts s hex h1 h2
    unfold sectionCandidate
    simp [h1, h2, hex]

/-- C1 witness: a long enough, non-noise section is indexed. -/
theorem claim1_witness :
    indexOne secRiskA (str "pmbok") 0 = some (mkIndexed secRiskA (str "pmbok") 0) :=
  claim1_theorem.1 secRiskA (str "pmbok") 0 _ rfl (by decide) (by decide)

lemma lowChar_ne (c u : Char) (hu : u = 'I' ∨ u = 'A' ∨ u = 'R') : lowChar c ≠ u := by
  rcases hu with h | h | h <;> subst h <;> unfold lowChar <;> split <;>
    first | decide | simp_all

lemma upperHead_not_leading (u : Char) (hu : u = 'I' ∨ u = 'A' ∨ u = 'R') (X : Str) :
    [u].isPrefixOf (lowerStr X) = false := by
  cases X with
  | nil => rfl
  | cons c cs =>
    simp only [lowerStr, List.map_cons, List.isPrefixOf, Bool.and_eq_false_iff]
    left
    simp only [beq_eq_false_iff_ne, ne_eq]
    exact fun h => lowChar_ne c u hu h.symm

/-- C8: the query-time classifier checks only four keywords, not the claimed
seven: a section whose title contains "bibliography" (and none of the four)
is not classified as noise by `isAppendixOrIndex`. -/
theorem claim8_counterexample :
    hasSubstr (str "bibliography") (entryTitle secBibliography) = true
    ∧ isAppendixOrIndex secBibliography = false := by
  decide

/-- C8 (amended): the query-time noise classifier fires exactly when the
lower-cased title contains one of the four keywords index, appendix,
appendices, references, or the trimmed lower-cased body text starts with one
of the same four; its additional first-upper-case-letter test can never fire
on a lower-cased title.  The seven-keyword set (with "table of contents",
"contents" and "bibliography") belongs to the load-time filter only. -/
theorem claim8_theorem (s : IndexedSection) :
    isAppendixOrIndex s =
      (queryExcludeKeywords.any (fun kw => hasSubstr kw (entryTitle s)) ||
       queryExcludeKeywords.any (fun kw => kw.isPrefixOf (lowerStr (trimStr (entryContent s))))) := by
  have hpre : ∀ (kw : Str), kw ∈ queryExcludeKeywords →
      (match kw with
       | [] => ([] : Str)
       | c :: _ => [upChar c]).isPrefixOf (entryTitle s) = false := by
    intro kw hkw
    fin_cases hkw
    · exact upperHead_not_leading 'I' (by tauto) _
    · exact upperHead_not_leading 'A' (by tauto) _
    · exact upperHead_not_leading 'A' (by tauto) _
    · exact upperHead_not_leading 'R' (by tauto) _
  unfold isAppendixOrIndex
  simp only [queryExcludeKeywords, List.any_cons, List.any_nil] at hpre ⊢
  rw [hpre (str "index") (by simp [queryExcludeKeywords]),
      hpre (str "appendix") (by simp [queryExcludeKeywords]),
      hpre (str "appendices") (by simp [queryExcludeKeywords]),
      hpre (str "references") (by simp [queryExcludeKeywords])]
  simp

lemma loadDocsAux_abort (f : LoadFile) (post : List LoadFile)
    (hf : endsWith (str ".json") f.fname = true) (hbad : f.parsed = none) :
    ∀ (pre : List LoadFile) (d : Documents) (idx : List IndexedSection) (n : Nat),
      (∀ g ∈ pre, endsWith (str ".json") g.fname = true → g.parsed.isSome) →
      loadDocsAux d idx n (pre ++ f :: post) =
        { loadDocsAux d idx n pre with errorLogged := true } := by
  intro pre
  induction pre with
  | nil =>
    intro d idx n _
    simp only [List.nil_append]
    unfold loadDocsAux
    simp [hf, hbad]
  | cons g gs ih =>
    intro d idx n hpre
    have hg := hpre g (by simp)
    by_cases hj : endsWith (str ".json") g.fname = true
    · obtain ⟨data, hdata⟩ := Option.isSome_iff_exists.1 (hg hj)
      simp only [List.cons_append]
      unfold loadDocsAux
      simp only [hj, if_true, hdata]
      exact ih _ _ _ (fun x hx => hpre x (by simp [hx]))
    · simp only [List.cons_append]
      unfold loadDocsAux
      simp only [hj, if_false]
      exact ih _ _ _ (fun x hx => hpre x (by simp [hx]))

/-- C2: load failures are not isolated per standard: with a well-formed PMBOK
file, a malformed PRINCE2 file and a well-formed ISO file, the ISO standard
is never loaded — the parse failure aborts the rest of the load (while PMBOK,
processed before the failure, stays loaded, and the error is only logged). -/
theorem claim2_counterexample :
    (loadDocuments filesWithBad).docs.pmbok.isSome = true
    ∧ (loadDocuments filesWithBad).docs.iso = none
    ∧ (loadDocuments filesWithBad).errorLogged = true := by
  decide

/-- C2 (amended): a malformed or unreadable record set never makes the load
fatal — the failure is caught and logged — but it is not isolated to its own
standard either: loading a file list that reaches a malformed JSON file
produces exactly the state obtained from the prefix before that file, with
the error flag set; the files after the failing one are never processed. -/
theorem claim2_theorem (pre : List LoadFile) (f : LoadFile) (post : List LoadFile)
    (hpre : ∀ g ∈ pre, endsWith (str ".json") g.fname = true → g.parsed.isSome)
    (hf : endsWith (str ".json") f.fname = true) (hbad : f.parsed = none) :
    loadDocuments (pre ++ f :: post) = { loadDocuments pre with errorLogged := true } :=
  loadDocsAux_abort f post hf hbad pre {} [] 0 hpre

/-- C2 witness: the amended behaviour at the concrete three-file input. -/
theorem claim2_witness :
    loadDocuments filesWithBad =
      { loadDocuments [⟨str "pmbok.json", some (.arr [secRiskA])⟩] with errorLogged := true } :=
  claim2_theorem [⟨str "pmbok.json", some (.arr [secRiskA])⟩]
    ⟨str "prince2.json", none⟩ [⟨str "iso.json", some (.arr [secRiskB])⟩]
    (by intro g hg; fin_cases hg; simp) (by decide) rfl

lemma search_results_le_max (tf : Str → Nat → ℚ) (stem : Str → Str)
    (index : List IndexedSection) (q : Str) (opts : SearchOptions) (st : Str)
    (hstd : opts.standardType = some st) :
    (search tf stem index q opts).results.length ≤ opts.maxResults := by
  by_cases he : ((((tokenize (lowerStr q)).map stem).filter (fun t => 2 < t.length)).isEmpty &&
      (((tokenize (lowerStr q)).filter (fun t => 2 < t.length))).isEmpty) = true
  · simp [search, he]
  · simp only [search, he, Bool.false_eq_true, if_false, hstd]
    simp only [List.length_map, List.length_take, length_sortByScore]
    exact min_le_left _ _

lemma compareOne_spec (tf : Str → Nat → ℚ) (stem : Str → Str)
    (index : List IndexedSection) (q : Str) (opts : SearchOptions)
    (docOpt : Option JsDoc) (mapped : Str) :
    slotSpec tf stem index q opts docOpt mapped
      (compareOne tf stem index q opts docOpt mapped).1
      (compareOne tf stem index q opts docOpt mapped).2 := by
  cases docOpt with
  | none => exact ⟨fun _ => ⟨rfl, rfl⟩, by simp⟩
  | some doc =>
    constructor
    · intro h
      exact absurd h (by simp)
    · intro _
      refine ⟨_, _, rfl, rfl, ?_, ?_, rfl⟩
      · simp only [compareOne, List.length_map]
        exact search_results_le_max tf stem index q
          { opts with standardType := some mapped, maxResults := 1 } mapped rfl
      · simp [compareOne, List.length_pos]

/-- C4: the comparison record does not omit standards with no loaded corpus:
their keys are initialized to empty lists and stay present — with only PMBOK
loaded, the PRINCE2 slot of the record is an (empty) entry, not an absent
one; only the summary omits the standard. -/
theorem claim4_counterexample :
    (compareAcrossStandards tf0 stem0 docsOnlyPmbok loadedAB.sectionsIndex
      (str "risk") {}).prince2 = some []
    ∧ (compareAcrossStandards tf0 stem0 docsOnlyPmbok loadedAB.sectionsIndex
      (str "risk") {}).summaryPrince2 = none := by
  decide

/-- C4 (amended): a standard with no loaded corpus keeps its initialized
empty result list in the comparison record (the key is present, not omitted)
and is omitted only from the summary; a loaded standard's list holds at most
one section, its summary's `hasResults` is true exactly when a section is
returned, and its summary's `totalResults` is one exactly when the
standard-filtered search had any candidate and zero otherwise. -/
theorem claim4_theorem (tf : Str → Nat → ℚ) (stem : Str → Str) (docs : Documents)
    (index : List IndexedSection) (q : Str) (opts : SearchOptions) :
    slotSpec tf stem index q opts docs.pmbok (standardMapName .pmbok)
      (compareAcrossStandards tf stem docs index q opts).pmbok
      (compareAcrossStandards tf stem docs index q opts).summaryPmbok
    ∧ slotSpec tf stem index q opts docs.prince2 (standardMapName .prince2)
      (compareAcrossStandards tf stem docs index q opts).prince2
      (compareAcrossStandards tf stem docs index q opts).summaryPrince2
    ∧ slotSpec tf stem index q opts docs.iso (standardMapName .iso)
      (compareAcrossStandards tf stem docs index q opts).iso
      (compareAcrossStandards tf stem docs index q opts).summaryIso :=
  ⟨compareOne_spec tf stem index q opts docs.pmbok (standardMapName .pmbok),
   compareOne_spec tf stem index q opts docs.prince2 (standardMapName .prince2),
   compareOne_spec tf stem index q opts docs.iso (standardMapName .iso)⟩

/-- C4 witness: the loaded-standard half of the contract at a concrete
store. -/
theorem claim4_witness :
    ∃ l e,
      (compareAcrossStandards tf0 stem0 docsOnlyPmbok loadedAB.sectionsIndex
        (str "risk") {}).pmbok = some l
      ∧ (compareAcrossStandards tf0 stem0 docsOnlyPmbok loadedAB.sectionsIndex
          (str "risk") {}).summaryPmbok = some e
      ∧ l.length ≤ 1
      ∧ (e.hasResults = true ↔ l ≠ [])
      ∧ e.totalResults =
          (if 0 < (search tf0 stem0 loadedAB.sectionsIndex (str "risk")
              { ({} : SearchOptions) with
                  standardType := some (standardMapName .pmbok)
                  maxResults := 1 }).totalResults
           then 1 else 0) :=
  (claim4_theorem tf0 stem0 docsOnlyPmbok loadedAB.sectionsIndex (str "risk") {}).1.2 rfl

lemma indexOne_text {s : RawSection} {key : Str} {n : Nat} {e : IndexedSection}
    (h : indexOne s key n = some e) : ∃ t, e.text = some t ∧ 50 ≤ t.length := by
  unfold indexOne at h
  cases hc : s.text with
  | none =>
    rw [hc] at h
    exact absurd h (by simp)
  | some t =>
    rw [hc] at h
    by_cases h5 : t.length < 50
    · simp [h5] at h
    · by_cases hx : loadExcluded s = true
      · simp [h5, hx] at h
      · simp only [h5, hx, Bool.false_eq_true, if_false, Option.some.injEq] at h
        refine ⟨t, ?_, by omega⟩
        rw [← h]
        simp [mkIndexed, hc]

lemma indexSections_text {key : Str} {l : List RawSection} {n : Nat} {e : IndexedSection}
    (h : e ∈ indexSections key l n) : ∃ t, e.text = some t ∧ 50 ≤ t.length := by
  induction l generalizing n with
  | nil => cases h
  | cons s rest ih =>
    unfold indexSections at h
    cases hio : indexOne s key n with
    | none =>
      rw [hio] at h
      exact ih h
    | some e' =>
      rw [hio] at h
      rcases List.mem_cons.1 h with rfl | h'
      · exact indexOne_text hio
      · exact ih h'

lemma loadDocsAux_text :
    ∀ (files : List LoadFile) (d : Documents) (idx : List IndexedSection) (n : Nat),
      (∀ e ∈ idx, ∃ t, e.text = some t ∧ 50 ≤ t.length) →
      ∀ e ∈ (loadDocsAux d idx n files).sectionsIndex, ∃ t, e.text = some t ∧ 50 ≤ t.length := by
  intro files
  induction files with
  | nil =>
    intro d idx n hinv e he
    exact hinv e he
  | cons f rest ih =>
    intro d idx n hinv e he
    unfold loadDocsAux at he
    by_cases hj : endsWith (str ".json") f.fname = true
    · rw [if_pos hj] at he
      cases hp : f.parsed with
      | none =>
        rw [hp] at he
        exact hinv e he
      | some data =>
        rw [hp] at he
        refine ih _ _ _ ?_ e he
        intro x hx
        rcases List.mem_append.1 hx with hx' | hx'
        · exact hinv x hx'
        · exact indexSections_text hx'
    · rw [if_neg hj] at he
      exact ih _ _ _ hinv e he

lemma sectionCandidate_sec {tf : Str → Nat → ℚ} {stem : Str → Str} {qt qw : List Str}
    {oq : Str} {opts : SearchOptions} {s : IndexedSection} {r : ScoredResult}
    (h : sectionCandidate tf stem qt qw oq opts s = some r) : r.sec = s := by
  unfold sectionCandidate at h
  split at h
  · exact absurd h (by simp)
  · split at h
    · exact absurd h (by simp)
    · split at h
      · exact absurd h (by simp)
      · simp only [scoreSection] at h
        split at h
        · injection h with h'
          rw [← h']
          rfl
        · exact absurd h (by simp)

lemma mem_candidates_sec {tf : Str → Nat → ℚ} {stem : Str → Str} {qt qw : List Str}
    {oq : Str} {opts : SearchOptions} {index : List IndexedSection} {r : ScoredResult}
    (h : r ∈ searchCandidates tf stem qt qw oq opts index) : r.sec ∈ index := by
  rcases List.mem_filterMap.1 h with ⟨s, hs, he⟩
  rw [sectionCandidate_sec he]
  exact hs

lemma search_results_sec {tf : Str → Nat → ℚ} {stem : Str → Str}
    {index : List IndexedSection} {q : Str} {opts : SearchOptions} {r : ResultItem}
    (h : r ∈ (search tf stem index q opts).results) : r.sec ∈ index := by
  by_cases he : ((((tokenize (lowerStr q)).map stem).filter (fun t => 2 < t.length)).isEmpty &&
      (((tokenize (lowerStr q)).filter (fun t => 2 < t.length))).isEmpty) = true
  · simp [search, he] at h
  · cases hstd : opts.standardType with
    | none =>
      simp only [search, he, Bool.false_eq_true, if_false, hstd] at h
      rcases List.mem_map.1 h with ⟨sr, hsr, rfl⟩
      have h1 := groupBest_subset (mem_sortByScore.1 hsr)
      have h2 := mem_sortByScore.1 h1
      exact mem_candidates_sec h2
    | some st =>
      simp only [search, he, Bool.false_eq_true, if_false, hstd] at h
      rcases List.mem_map.1 h with ⟨sr, hsr, rfl⟩
      have h1 := List.take_subset _ _ hsr
      have h2 := mem_sortByScore.1 h1
      exact mem_candidates_sec h2

lemma search_allResults_sec {tf : Str → Nat → ℚ} {stem : Str → Str}
    {index : List IndexedSection} {q : Str} {opts : SearchOptions}
    {l : List ResultItem} {r : ResultItem}
    (hl : (search tf stem index q opts).allResults = some l) (h : r ∈ l) : r.sec ∈ index := by
  by_cases he : ((((tokenize (lowerStr q)).map stem).filter (fun t => 2 < t.length)).isEmpty &&
      (((tokenize (lowerStr q)).filter (fun t => 2 < t.length))).isEmpty) = true
  · simp [search, he] at hl
  · cases hstd : opts.standardType with
    | none =>
      simp only [search, he, Bool.false_eq_true, if_false, hstd, Option.some.injEq] at hl
      rw [← hl] at h
      rcases List.mem_map.1 h with ⟨sr, hsr, rfl⟩
      have h1 := List.take_subset _ _ hsr
      have h2 := mem_sortByScore.1 h1
      exact mem_candidates_sec h2
    | some st =>
      simp only [search, he, Bool.false_eq_true, if_false, hstd, Option.some.injEq] at hl
      rw [← hl] at h
      rcases List.mem_map.1 h with ⟨sr, hsr, rfl⟩
      have h1 := List.take_subset _ _ hsr
      have h2 := mem_sortByScore.1 h1
      exact mem_candidates_sec h2

/-- C9: every section in an index built by `loadDocuments` has body text of
at least 50 characters, and consequently no query — under any options —
returns a result (in `results` or `allResults`) whose section has shorter
body text. -/
theorem claim9_theorem (files : List LoadFile) (tf : Str → Nat → ℚ) (stem : Str → Str)
    (q : Str) (opts : SearchOptions) :
    (∀ e ∈ (loadDocuments files).sectionsIndex, ∃ t, e.text = some t ∧ 50 ≤ t.length)
    ∧ (∀ r ∈ (search tf stem (loadDocuments files).sectionsIndex q opts).results,
        ∃ t, r.sec.text = some t ∧ 50 ≤ t.length)
    ∧ (∀ l, (search tf stem (loadDocuments files).sectionsIndex q opts).allResults = some l →
        ∀ r ∈ l, ∃ t, r.sec.text = some t ∧ 50 ≤ t.length) := by
  have hidx : ∀ e ∈ (loadDocuments files).sectionsIndex,
      ∃ t, e.text = some t ∧ 50 ≤ t.length :=
    loadDocsAux_text files {} [] 0 (by intro e he; cases he)
  refine ⟨hidx, ?_, ?_⟩
  · intro r hr
    exact hidx r.sec (search_results_sec hr)
  · intro l hl r hr
    exact hidx r.sec (search_allResults_sec hl hr)

/-- C9 witness: the invariant holds of the section indexed from the concrete
one-file load. -/
theorem claim9_witness :
    ∃ t, (mkIndexed secRiskA (str "pmbok") 0).text = some t ∧ 50 ≤ t.length :=
  (claim9_theorem [⟨str "pmbok.json", some (.arr [secRiskA])⟩] tf0 stem0 (str "risk") {}).1
    (mkIndexed secRiskA (str "pmbok") 0) (by decide)

/-- C10: for a loaded standard with an empty section array the success rate
is indeed the NaN of an unguarded zero-by-zero division — but `totalPages`
does not fall back to 0: `Math.max` of an empty spread is negative infinity,
which is truthy, so the fallback never applies. -/
theorem claim10_counterexample :
    (getDocumentStats docsEmptyArr).pmbok.map (fun e => (e.successRate, e.totalPages))
      = some (JNum.nan, JNum.ninf)
    ∧ JNum.ninf ≠ JNum.fin 0 := by
  decide

/-- C10 (amended): the statistics record of a loaded standard whose section
array is empty carries zero totals, the NaN success rate of the unguarded
round((0 divided by 0) times 100), and a `totalPages` of negative infinity —
the maximum over an empty spread, kept by the truthiness fallback. -/
theorem claim10_theorem (key : Str) :
    statsForDoc key (.arr []) =
      { title := upperStr key
        standardType := upperStr key
        totalSections := 0
        validSections := 0
        successRate := JNum.nan
        totalPages := JNum.ninf } := by
  unfold statsForDoc
  simp [jdiv, jmul, jround, jmaxList, jnumOr, jtruthy, orDefault, jsOr, orEmpty]
